import Mathlib

/-!
Shallow embedding of `src/zeta.js`.

JavaScript numbers are IEEE-754 doubles.  The embedding models them with
`JsNum`: the special values NaN, +Infinity and -Infinity are represented
exactly, and every finite double is idealised as an exact rational number
(so binary rounding, overflow to infinity and the signed zero are not
modelled; decimal literals such as `1e-6` are taken at their exact decimal
value).  All operations follow the ECMAScript `Number` semantics on this
idealised carrier.
-/

set_option maxRecDepth 20000

/-- Model of a JavaScript number: NaN, the two infinities, or a finite
value idealised as an exact rational. -/
inductive JsNum where
  | nan : JsNum
  | posInf : JsNum
  | negInf : JsNum
  | fin : ℚ → JsNum
  deriving DecidableEq, Repr

open JsNum

/-- ECMAScript addition on the model (NaN is absorbing, opposite
infinities give NaN). -/
def jsAdd : JsNum → JsNum → JsNum
  | nan, _ => nan
  | _, nan => nan
  | posInf, negInf => nan
  | negInf, posInf => nan
  | posInf, _ => posInf
  | _, posInf => posInf
  | negInf, _ => negInf
  | _, negInf => negInf
  | fin a, fin b => fin (a + b)

/-- ECMAScript multiplication on the model (NaN absorbing, zero times an
infinity is NaN, sign rules for infinities). -/
def jsMul : JsNum → JsNum → JsNum
  | nan, _ => nan
  | _, nan => nan
  | posInf, posInf => posInf
  | posInf, negInf => negInf
  | negInf, posInf => negInf
  | negInf, negInf => posInf
  | posInf, fin b => if 0 < b then posInf else if b < 0 then negInf else nan
  | fin a, posInf => if 0 < a then posInf else if a < 0 then negInf else nan
  | negInf, fin b => if 0 < b then negInf else if b < 0 then posInf else nan
  | fin a, negInf => if 0 < a then negInf else if a < 0 then posInf else nan
  | fin a, fin b => fin (a * b)

/-- ECMAScript division on the model.  Division by (positive) zero gives
+Infinity for a positive dividend, -Infinity for a negative one and NaN
for 0/0; a finite value divided by an infinity gives 0 (the sign of zero
is not modelled). -/
def jsDiv : JsNum → JsNum → JsNum
  | nan, _ => nan
  | _, nan => nan
  | posInf, posInf => nan
  | posInf, negInf => nan
  | negInf, posInf => nan
  | negInf, negInf => nan
  | posInf, fin b => if 0 ≤ b then posInf else negInf
  | negInf, fin b => if 0 ≤ b then negInf else posInf
  | _, posInf => fin 0
  | _, negInf => fin 0
  | fin a, fin b =>
      if b = 0 then (if 0 < a then posInf else if a < 0 then negInf else nan)
      else fin (a / b)

/-- ECMAScript `Math.pow` (`Number::exponentiate`) on the model, following
the case order of the ECMAScript specification: a NaN exponent gives NaN,
a zero exponent gives 1 (even for NaN or infinite bases), then the NaN,
infinite and zero bases, the infinite exponents (with the `|base| = 1`
cases giving NaN), and finally finite base and exponent.  A negative
finite base with a non-integer exponent gives NaN.  For a nonzero finite
base and a nonzero integer exponent the result is the exact rational
power.  For a positive finite base and a non-integer rational exponent
the true result `b ^ e` is irrational in general and cannot live in the
rational carrier; the model uses `b ^ ⌊e⌋`, which agrees with the true
power on the properties used in this development (it is positive, and is
1 when the base is 1). -/
def jsPow (b e : JsNum) : JsNum :=
  match e with
  | nan => nan
  | posInf =>
      match b with
      | nan => nan
      | posInf => posInf
      | negInf => posInf
      | fin b0 =>
          if b0 = 1 ∨ b0 = -1 then nan
          else if 1 < |b0| then posInf else fin 0
  | negInf =>
      match b with
      | nan => nan
      | posInf => fin 0
      | negInf => fin 0
      | fin b0 =>
          if b0 = 1 ∨ b0 = -1 then nan
          else if 1 < |b0| then fin 0 else posInf
  | fin e0 =>
      if e0 = 0 then fin 1
      else
        match b with
        | nan => nan
        | posInf => if 0 < e0 then posInf else fin 0
        | negInf =>
            if 0 < e0 then
              (if e0.den = 1 ∧ e0.num % 2 = 1 then negInf else posInf)
            else fin 0
        | fin b0 =>
            if b0 = 0 then (if 0 < e0 then fin 0 else posInf)
            else if b0 < 0 ∧ e0.den ≠ 1 then nan
            else if e0.den = 1 then fin (b0 ^ e0.num)
            else fin (b0 ^ ⌊e0⌋)

/-- The constant `n = 1000` of `zeta` in `src/zeta.js`. -/
def zetaN : ℕ := 1000

/-- The loop `for (let k = 1; k < n; k++) sum += 1 / Math.pow(k, s)` of
`zeta` in `src/zeta.js`, as a tail-recursive function of the loop
variable `k` and the accumulator `sum`. -/
def zetaLoop (s : JsNum) (k : ℕ) (sum : JsNum) : JsNum :=
  if h : k < zetaN then
    zetaLoop s (k + 1) (jsAdd sum (jsDiv (fin 1) (jsPow (fin (k : ℚ)) s)))
  else sum
termination_by zetaN - k
decreasing_by
  omega

/-- The function `zeta` of `src/zeta.js`: starting from `sum = 0`, run the
summation loop from `k = 1`. -/
def zeta (s : JsNum) : JsNum := zetaLoop s 1 (fin 0)

/-- Whitespace characters skipped by `parseFloat` (the ASCII ones; the
exotic Unicode space characters are not modelled). -/
def isWSChar (c : Char) : Bool :=
  c == ' ' || c == '\t' || c == '\n' || c == '\r' ||
    c == Char.ofNat 11 || c == Char.ofNat 12

/-- Value of a list of decimal digit characters, most significant first. -/
def digitsVal (l : List Char) : ℕ :=
  l.foldl (fun a c => 10 * a + (c.toNat - 48)) 0

/-- The string `Infinity` recognised by `parseFloat`. -/
def infinityChars : List Char := ['I', 'n', 'f', 'i', 'n', 'i', 't', 'y']

/-- ECMAScript `parseFloat`: skip leading whitespace, read an optional
sign, then the longest prefix that is `Infinity` or a decimal literal
(digits, an optional fraction, an optional exponent whose digits must be
nonempty for it to be consumed); if no such prefix exists the result is
NaN.  The numeric value is idealised as an exact rational instead of the
nearest double. -/
def parseFloat (str : String) : JsNum :=
  let cs0 := str.data.dropWhile isWSChar
  let sgn : ℚ := match cs0 with
    | '-' :: _ => -1
    | _ => 1
  let cs : List Char := match cs0 with
    | '+' :: r => r
    | '-' :: r => r
    | _ => cs0
  if infinityChars.isPrefixOf cs then
    (if sgn = 1 then posInf else negInf)
  else
    let intD := cs.takeWhile Char.isDigit
    let cs1 := cs.dropWhile Char.isDigit
    let fracD : List Char := match cs1 with
      | '.' :: r => r.takeWhile Char.isDigit
      | _ => []
    let cs2 : List Char := match cs1 with
      | '.' :: r => r.dropWhile Char.isDigit
      | _ => cs1
    if intD = [] ∧ fracD = [] then nan
    else
      let mant : ℚ := (digitsVal intD : ℚ) + (digitsVal fracD : ℚ) / 10 ^ fracD.length
      let ex : ℤ := match cs2 with
        | 'e' :: '+' :: r2 =>
            (if r2.takeWhile Char.isDigit = [] then 0
             else (digitsVal (r2.takeWhile Char.isDigit) : ℤ))
        | 'e' :: '-' :: r2 =>
            (if r2.takeWhile Char.isDigit = [] then 0
             else -(digitsVal (r2.takeWhile Char.isDigit) : ℤ))
        | 'e' :: r2 =>
            (if r2.takeWhile Char.isDigit = [] then 0
             else (digitsVal (r2.takeWhile Char.isDigit) : ℤ))
        | 'E' :: '+' :: r2 =>
            (if r2.takeWhile Char.isDigit = [] then 0
             else (digitsVal (r2.takeWhile Char.isDigit) : ℤ))
        | 'E' :: '-' :: r2 =>
            (if r2.takeWhile Char.isDigit = [] then 0
             else -(digitsVal (r2.takeWhile Char.isDigit) : ℤ))
        | 'E' :: r2 =>
            (if r2.takeWhile Char.isDigit = [] then 0
             else (digitsVal (r2.takeWhile Char.isDigit) : ℤ))
        | _ => 0
      fin (sgn * (mant * 10 ^ ex))

/-- Decimal digit character for `x % 10`. -/
def digitOf (x : ℕ) : Char := Char.ofNat (48 + x % 10)

/-- Decimal digit characters, most significant first, by structural
recursion on a fuel argument (so that the function reduces on concrete
inputs; `natDigits` supplies enough fuel). -/
def natDigitsAux : ℕ → ℕ → List Char
  | _, 0 => []
  | m, fuel + 1 =>
      if m < 10 then [digitOf m] else natDigitsAux (m / 10) fuel ++ [digitOf m]

/-- Decimal digit characters of a natural number, most significant
first. -/
def natDigits (m : ℕ) : List Char := natDigitsAux m (m + 1)

/-- Exactly six decimal digit characters for `m % 1000000`, most
significant first (the fractional block of `toFixed(6)`). -/
def frac6 (m : ℕ) : List Char :=
  [digitOf (m / 100000), digitOf (m / 10000), digitOf (m / 1000),
   digitOf (m / 100), digitOf (m / 10), digitOf m]

/-- Trailing zero characters removed. -/
def trimTrailingZeros (l : List Char) : List Char :=
  (l.reverse.dropWhile (fun c => c == '0')).reverse

/-- ECMAScript `ToString` for a (nonnegative) magnitude of at least
`10 ^ 21`, which prints in exponential notation.  The model prints the
decimal digits of the integer part with trailing zeros trimmed (the
shortest-round-trip digit selection of doubles is not modelled). -/
def bigToString (a : ℚ) : String :=
  let ds := natDigits (⌊a⌋).toNat
  let mant : String := match trimTrailingZeros ds with
    | [] => String.mk ['0']
    | [c] => String.mk [c]
    | c :: rest => String.mk [c] ++ String.mk ['.'] ++ String.mk rest
  mant ++ String.mk ['e', '+'] ++ String.mk (natDigits (ds.length - 1))

/-- Rounding step of `toFixed(6)` on a nonnegative magnitude `a`: the
integer `n` minimising the distance of `n / 10^6` to `a`, with ties
resolved to the larger `n` (half-up). -/
def roundFix6 (a : ℚ) : ℕ := (⌊a * 1000000 + 1 / 2⌋).toNat

/-- Fixed-notation rendering of the rounded magnitude `m` (in units of
`10 ^ (-6)`): the integer digits, a point, and exactly six fractional
digits. -/
def fixedStr (m : ℕ) : String :=
  String.mk (natDigits (m / 1000000)) ++ String.mk ['.'] ++
    String.mk (frac6 (m % 1000000))

/-- ECMAScript `Number.prototype.toFixed` with fraction length 6: NaN
prints as `NaN`, the infinities as `Infinity` / `-Infinity`; otherwise
the sign is split off, a magnitude of at least `10 ^ 21` falls back to
`ToString`, and a smaller magnitude is rounded half-up to six decimal
places and printed in fixed notation. -/
def toFixed6 (x : JsNum) : String :=
  match x with
  | nan => String.mk ['N', 'a', 'N']
  | posInf => String.mk ['I', 'n', 'f', 'i', 'n', 'i', 't', 'y']
  | negInf => String.mk ['-', 'I', 'n', 'f', 'i', 'n', 'i', 't', 'y']
  | fin q =>
      (if q < 0 then String.mk ['-'] else String.mk []) ++
        (if (10 : ℚ) ^ 21 ≤ |q| then bigToString |q| else fixedStr (roundFix6 |q|))

/-- The two DOM text slots touched by `calculate`: the `value` of the
`time` input field and the `innerText` of the `output` element. -/
structure DOM where
  time : String
  output : String
  deriving DecidableEq, Repr

/-- The prefix `E(t) ≈ ` of the template literal written by
`calculate`. -/
def outPrefix : String := String.mk ['E', '(', 't', ')', ' ', '≈', ' ']

/-- The function `calculate` of `src/zeta.js`: parse `t` from the `time`
field, compute `zeta(1 + t * 1e-6)`, multiply by `t`, and write the
string `E(t) ≈ ` followed by the result fixed to six decimals into the
`output` element (the `time` field is left unchanged). -/
def calculate (d : DOM) : DOM :=
  let t := parseFloat d.time
  let realZeta := zeta (jsAdd (fin 1) (jsMul t (fin (1 / 1000000))))
  let E := jsMul t realZeta
  DOM.mk d.time (outPrefix ++ toFixed6 E)

/-- The list of loop indices `k = 1, …, n - 1` traversed by the summation
loop of `zeta`, in increasing order. -/
def zetaTermIndices : List ℕ := List.range' 1 (zetaN - 1)

/-- The characters strictly after the first `.` of a string, if the
string has one. -/
def afterPoint (s : String) : Option (List Char) :=
  match s.data.dropWhile (fun c => !(c == '.')) with
  | [] => none
  | _ :: rest => some rest

/-- The empty input string. -/
def inputEmpty : String := String.mk []

/-- The input string `0`. -/
def inputZero : String := String.mk ['0']

/-- The input string `-1000000`. -/
def inputNegMillion : String := String.mk ['-', '1', '0', '0', '0', '0', '0', '0']

/-- The exact value of the model's `zeta` at the exponent 1: the 999-term
harmonic partial sum. -/
def qzeta1 : ℚ := ((List.range' 1 999).map (fun k : ℕ => 1 / (k : ℚ))).sum

/-- Dyadic lower approximation of `qzeta1` with denominator `2 ^ 26`,
computed entirely in `ℕ`. -/
def harmonicLow : ℕ := ((List.range' 1 999).map (fun k => 67108864 / k)).sum

theorem jsAdd_nan_left (x : JsNum) : jsAdd nan x = nan := by cases x <;> rfl

theorem jsAdd_nan_right (x : JsNum) : jsAdd x nan = nan := by cases x <;> rfl

theorem jsMul_nan_left (x : JsNum) : jsMul nan x = nan := by cases x <;> rfl

theorem jsMul_nan_right (x : JsNum) : jsMul x nan = nan := by cases x <;> rfl

theorem jsDiv_nan_right (x : JsNum) : jsDiv x nan = nan := by cases x <;> rfl

theorem jsPow_nan_exp (b : JsNum) : jsPow b nan = nan := rfl

/-- The tail-recursive summation loop is the left fold of the loop body
over the remaining indices. -/
theorem zetaLoop_eq_foldl (s : JsNum) :
    ∀ (d k : ℕ), zetaN - k = d → ∀ acc : JsNum,
      zetaLoop s k acc =
        (List.range' k d).foldl
          (fun (a : JsNum) (j : ℕ) => jsAdd a (jsDiv (fin 1) (jsPow (fin (j : ℚ)) s))) acc := by
  intro d
  induction d with
  | zero =>
      intro k hk acc
      rw [zetaLoop, dif_neg (by omega)]
      rfl
  | succ d ih =>
      intro k hk acc
      rw [zetaLoop, dif_pos (by omega)]
      rw [ih (k + 1) (by omega)]
      rfl

/-- `zeta` is the left fold of the loop body over the indices
`1, …, n - 1`. -/
theorem zeta_eq_foldl (s : JsNum) :
    zeta s =
      zetaTermIndices.foldl
        (fun (a : JsNum) (j : ℕ) => jsAdd a (jsDiv (fin 1) (jsPow (fin (j : ℚ)) s))) (fin 0) := by
  exact zetaLoop_eq_foldl s (zetaN - 1) 1 rfl (fin 0)

/-- Once the accumulator is NaN it stays NaN. -/
theorem foldl_jsAdd_nan (t : ℕ → JsNum) :
    ∀ l : List ℕ, l.foldl (fun a j => jsAdd a (t j)) nan = nan := by
  intro l
  induction l with
  | nil => rfl
  | cons x xs ih =>
      simpa [List.foldl, jsAdd_nan_left] using ih

theorem zeta_nan : zeta nan = nan := by
  rw [zeta_eq_foldl]
  rw [show zetaTermIndices = 1 :: List.range' 2 998 from rfl]
  rw [List.foldl_cons]
  rw [show jsAdd (fin 0) (jsDiv (fin 1) (jsPow (fin ((1 : ℕ) : ℚ)) nan)) = nan from rfl]
  exact foldl_jsAdd_nan _ _

theorem zeta_posInf : zeta posInf = nan := by
  rw [zeta_eq_foldl]
  rw [show zetaTermIndices = 1 :: List.range' 2 998 from rfl]
  rw [List.foldl_cons]
  rw [show jsAdd (fin 0) (jsDiv (fin 1) (jsPow (fin ((1 : ℕ) : ℚ)) posInf)) = nan by norm_num [jsPow, jsDiv, jsAdd]]
  exact foldl_jsAdd_nan _ _

theorem zeta_negInf : zeta negInf = nan := by
  rw [zeta_eq_foldl]
  rw [show zetaTermIndices = 1 :: List.range' 2 998 from rfl]
  rw [List.foldl_cons]
  rw [show jsAdd (fin 0) (jsDiv (fin 1) (jsPow (fin ((1 : ℕ) : ℚ)) negInf)) = nan by norm_num [jsPow, jsDiv, jsAdd]]
  exact foldl_jsAdd_nan _ _

theorem jsPow_base_one (q : ℚ) : jsPow (fin 1) (fin q) = fin 1 := by
  simp only [jsPow]
  by_cases h1 : q = 0
  · rw [if_pos h1]
  · rw [if_neg h1, if_neg (one_ne_zero : (1 : ℚ) ≠ 0),
      if_neg (show ¬((1 : ℚ) < 0 ∧ q.den ≠ 1) from fun hc => absurd hc.1 (by norm_num))]
    by_cases h2 : q.den = 1
    · rw [if_pos h2, one_zpow]
    · rw [if_neg h2, one_zpow]

theorem jsPow_fin_pos {b : ℚ} (hb : 0 < b) (q : ℚ) :
    ∃ p : ℚ, 0 < p ∧ jsPow (fin b) (fin q) = fin p := by
  simp only [jsPow]
  by_cases h1 : q = 0
  · rw [if_pos h1]
    exact ⟨1, one_pos, rfl⟩
  · rw [if_neg h1, if_neg hb.ne',
      if_neg (show ¬(b < 0 ∧ q.den ≠ 1) from fun hc => absurd hc.1 (not_lt.mpr hb.le))]
    by_cases h2 : q.den = 1
    · rw [if_pos h2]
      exact ⟨b ^ q.num, zpow_pos hb _, rfl⟩
    · rw [if_neg h2]
      exact ⟨b ^ ⌊q⌋, zpow_pos hb _, rfl⟩

theorem jsPow_exp_zero (b : ℚ) : jsPow (fin b) (fin 0) = fin 1 := by
  simp [jsPow]

theorem jsPow_exp_one {k : ℚ} (hk : k ≠ 0) : jsPow (fin k) (fin 1) = fin k := by
  simp only [jsPow]
  rw [if_neg one_ne_zero, if_neg hk]
  have hden : (1 : ℚ).den = 1 := rfl
  rw [if_neg (by simp [hden]), if_pos hden]
  norm_num

theorem jsDiv_one_fin {p : ℚ} (hp : p ≠ 0) : jsDiv (fin 1) (fin p) = fin (1 / p) := by
  simp only [jsDiv, if_neg hp]

theorem jsAdd_fin_fin (a b : ℚ) : jsAdd (fin a) (fin b) = fin (a + b) := rfl

theorem jsMul_fin_fin (a b : ℚ) : jsMul (fin a) (fin b) = fin (a * b) := rfl

/-- When every loop body application on a finite accumulator adds the
exact rational `f k`, the whole fold of the loop body computes the sum of
the `f k` over the index list. -/
theorem foldl_fin_exact (s : JsNum) (f : ℕ → ℚ) :
    ∀ l : List ℕ,
      (∀ k ∈ l, ∀ a : ℚ,
          jsAdd (fin a) (jsDiv (fin 1) (jsPow (fin (k : ℚ)) s)) = fin (a + f k)) →
      ∀ a : ℚ,
        l.foldl (fun (x : JsNum) (j : ℕ) =>
            jsAdd x (jsDiv (fin 1) (jsPow (fin (j : ℚ)) s))) (fin a) =
          fin (a + (l.map f).sum) := by
  intro l
  induction l with
  | nil => intro _ a; simp
  | cons x xs ih =>
      intro h a
      rw [List.foldl_cons, h x (List.mem_cons_self x xs) a,
        ih (fun k hk => h k (List.mem_cons_of_mem _ hk)) (a + f x)]
      rw [List.map_cons, List.sum_cons]
      ring_nf

theorem mem_zetaTermIndices_pos {k : ℕ} (hk : k ∈ zetaTermIndices) : 1 ≤ k := by
  obtain ⟨i, _, rfl⟩ := List.mem_range'.1 hk
  omega

/-- The model's `zeta` at the exponent 0 adds 1 for each of the 999 loop
indices. -/
theorem zeta_fin_zero : zeta (fin 0) = fin 999 := by
  rw [zeta_eq_foldl]
  rw [foldl_fin_exact (fin 0) (fun _ => 1) zetaTermIndices ?_ 0]
  · norm_num [List.map_const', List.sum_replicate, zetaTermIndices, List.length_range', zetaN]
  · intro k _ a
    rw [jsPow_exp_zero, jsDiv_one_fin one_ne_zero]
    norm_num [jsAdd_fin_fin]

/-- The model's `zeta` at the exponent 1 is the exact 999-term harmonic
partial sum. -/
theorem zeta_fin_one : zeta (fin 1) = fin qzeta1 := by
  rw [zeta_eq_foldl]
  rw [foldl_fin_exact (fin 1) (fun k => 1 / (k : ℚ)) zetaTermIndices ?_ 0]
  · simp [qzeta1, zetaTermIndices, zetaN]
  · intro k hk a
    have h1 : 1 ≤ k := mem_zetaTermIndices_pos hk
    have hk0 : (k : ℚ) ≠ 0 := Nat.cast_ne_zero.mpr (by omega)
    rw [jsPow_exp_one hk0, jsDiv_one_fin hk0, jsAdd_fin_fin]

/-- Folding the loop body at a finite exponent over positive indices
keeps the accumulator finite and never decreases it. -/
theorem foldl_fin_lower (q : ℚ) :
    ∀ l : List ℕ, (∀ k ∈ l, 1 ≤ k) → ∀ a : ℚ,
      ∃ r : ℚ,
        l.foldl (fun (x : JsNum) (j : ℕ) =>
            jsAdd x (jsDiv (fin 1) (jsPow (fin (j : ℚ)) (fin q)))) (fin a) = fin r ∧
          a ≤ r := by
  intro l
  induction l with
  | nil => intro _ a; exact ⟨a, rfl, le_refl a⟩
  | cons x xs ih =>
      intro h a
      have hx : (0 : ℚ) < (x : ℚ) := by
        have := h x (List.mem_cons_self x xs)
        exact_mod_cast Nat.lt_of_lt_of_le Nat.zero_lt_one this
      obtain ⟨p, hp, hpow⟩ := jsPow_fin_pos hx q
      rw [List.foldl_cons, hpow, jsDiv_one_fin hp.ne', jsAdd_fin_fin]
      obtain ⟨r, hr, har⟩ := ih (fun k hk => h k (List.mem_cons_of_mem _ hk)) (a + 1 / p)
      refine ⟨r, hr, le_trans (le_add_of_nonneg_right (by positivity)) har⟩

/-- At every finite exponent the model's `zeta` is a finite value of at
least 1: the `k = 1` term contributes exactly 1 and the later terms are
nonnegative. -/
theorem zeta_fin_ge_one (q : ℚ) : ∃ r : ℚ, zeta (fin q) = fin r ∧ 1 ≤ r := by
  rw [zeta_eq_foldl]
  rw [show zetaTermIndices = 1 :: List.range' 2 998 from rfl]
  rw [List.foldl_cons]
  have hcast : ((1 : ℕ) : ℚ) = 1 := Nat.cast_one
  rw [hcast, jsPow_base_one, jsDiv_one_fin one_ne_zero, jsAdd_fin_fin]
  have hval : (0 : ℚ) + 1 / 1 = 1 := by norm_num
  rw [hval]
  exact foldl_fin_lower q (List.range' 2 998)
    (fun k hk => by obtain ⟨i, _, rfl⟩ := List.mem_range'.1 hk; omega) 1

theorem sum_map_cast_div (c : ℚ) (g : ℕ → ℕ) :
    ∀ l : List ℕ,
      (l.map (fun k => ((g k : ℕ) : ℚ) / c)).sum = (((l.map g).sum : ℕ) : ℚ) / c := by
  intro l
  induction l with
  | nil => simp
  | cons x xs ih =>
      simp only [List.map_cons, List.sum_cons, ih]
      push_cast
      ring

theorem sum_map_add_const (c : ℚ) (g : ℕ → ℚ) :
    ∀ l : List ℕ,
      (l.map (fun k => g k + c)).sum = (l.map g).sum + l.length * c := by
  intro l
  induction l with
  | nil => simp
  | cons x xs ih =>
      simp only [List.map_cons, List.sum_cons, ih, List.length_cons]
      push_cast
      ring

theorem dyadic_le {k : ℕ} (hk : 1 ≤ k) :
    ((67108864 / k : ℕ) : ℚ) / 67108864 ≤ 1 / (k : ℚ) := by
  have hk0 : (0 : ℚ) < (k : ℚ) := by exact_mod_cast Nat.lt_of_lt_of_le Nat.zero_lt_one hk
  rw [div_le_div_iff₀ (by norm_num) hk0, one_mul]
  exact_mod_cast Nat.div_mul_le_self 67108864 k

theorem le_dyadic {k : ℕ} (hk : 1 ≤ k) :
    1 / (k : ℚ) ≤ ((67108864 / k : ℕ) : ℚ) / 67108864 + 1 / 67108864 := by
  have hk0 : (0 : ℚ) < (k : ℚ) := by exact_mod_cast Nat.lt_of_lt_of_le Nat.zero_lt_one hk
  rw [div_add_div_same, div_le_div_iff₀ hk0 (by norm_num), one_mul]
  have hnat : 67108864 < (67108864 / k + 1) * k := by
    have e1 : (67108864 / k + 1) * k = k * (67108864 / k) + k := by ring
    have e2 := Nat.div_add_mod 67108864 k
    have e3 := Nat.mod_lt 67108864 (show 0 < k by omega)
    nlinarith [e1, e2, e3]
  have : (67108864 : ℚ) < ((67108864 / k + 1) * k : ℕ) := by exact_mod_cast hnat
  push_cast at this ⊢
  linarith

theorem harmonicLow_lb : (7484 : ℚ) / 1000 < (harmonicLow : ℚ) / 67108864 := by
  rw [div_lt_div_iff₀ (by norm_num) (by norm_num)]
  exact_mod_cast (by decide : 7484 * 67108864 < harmonicLow * 1000)

theorem qzeta1_lower : (7484 : ℚ) / 1000 < qzeta1 := by
  have hmono :
      ((List.range' 1 999).map (fun k : ℕ => ((67108864 / k : ℕ) : ℚ) / 67108864)).sum ≤
        ((List.range' 1 999).map (fun k : ℕ => 1 / (k : ℚ))).sum := by
    apply List.sum_le_sum
    intro k hk
    obtain ⟨i, _, rfl⟩ := List.mem_range'.1 hk
    exact dyadic_le (by omega)
  have hcast :
      ((List.range' 1 999).map (fun k : ℕ => ((67108864 / k : ℕ) : ℚ) / 67108864)).sum =
        (harmonicLow : ℚ) / 67108864 := by
    rw [sum_map_cast_div 67108864 (fun k => 67108864 / k) (List.range' 1 999)]
    rfl
  calc (7484 : ℚ) / 1000 < (harmonicLow : ℚ) / 67108864 := harmonicLow_lb
    _ = _ := hcast.symm
    _ ≤ qzeta1 := hmono

theorem qzeta1_upper : qzeta1 < (7486 : ℚ) / 1000 := by
  have hmono :
      qzeta1 ≤
        ((List.range' 1 999).map
          (fun k : ℕ => ((67108864 / k : ℕ) : ℚ) / 67108864 + 1 / 67108864)).sum := by
    apply List.sum_le_sum
    intro k hk
    obtain ⟨i, _, rfl⟩ := List.mem_range'.1 hk
    exact le_dyadic (by omega)
  have hsplit :
      ((List.range' 1 999).map
          (fun k : ℕ => ((67108864 / k : ℕ) : ℚ) / 67108864 + 1 / 67108864)).sum =
        (harmonicLow : ℚ) / 67108864 + 999 * (1 / 67108864) := by
    rw [sum_map_add_const (1 / 67108864)
      (fun k : ℕ => ((67108864 / k : ℕ) : ℚ) / 67108864) (List.range' 1 999)]
    rw [sum_map_cast_div 67108864 (fun k => 67108864 / k) (List.range' 1 999)]
    norm_num [List.length_range']
    rw [← List.map_map, ← Nat.cast_list_sum]
    rfl
  have hnum : (harmonicLow : ℚ) / 67108864 + 999 * (1 / 67108864) < 7486 / 1000 := by
    rw [show (harmonicLow : ℚ) / 67108864 + 999 * (1 / 67108864) =
        ((harmonicLow : ℚ) + 999) / 67108864 by ring]
    rw [div_lt_div_iff₀ (by norm_num) (by norm_num)]
    have h := (by decide : (harmonicLow + 999) * 1000 < 7486 * 67108864)
    exact_mod_cast h
  calc qzeta1 ≤ _ := hmono
    _ = _ := hsplit
    _ < 7486 / 1000 := hnum

/-- The 999-term harmonic partial sum is within `0.001` of `7.485`. -/
theorem qzeta1_near : |qzeta1 - 7485 / 1000| < 1 / 1000 := by
  rw [abs_lt]
  refine ⟨by linarith [qzeta1_lower], by linarith [qzeta1_upper]⟩

theorem digitOf_isDigit (x : ℕ) : (digitOf x).isDigit = true := by
  unfold digitOf
  have h : x % 10 = 0 ∨ x % 10 = 1 ∨ x % 10 = 2 ∨ x % 10 = 3 ∨ x % 10 = 4 ∨
      x % 10 = 5 ∨ x % 10 = 6 ∨ x % 10 = 7 ∨ x % 10 = 8 ∨ x % 10 = 9 := by omega
  rcases h with h | h | h | h | h | h | h | h | h | h <;> rw [h] <;> decide

theorem digit_skip {c : Char} (h : c.isDigit = true) : (!(c == '.')) = true := by
  cases hc : c == '.'
  · rfl
  · have hdot : c = '.' := eq_of_beq hc
    subst hdot
    exact absurd h (by decide)

theorem natDigitsAux_digits :
    ∀ (fuel m : ℕ), ∀ c ∈ natDigitsAux m fuel, c.isDigit = true := by
  intro fuel
  induction fuel with
  | zero => intro m c hc; simp [natDigitsAux] at hc
  | succ f ih =>
      intro m c hc
      simp only [natDigitsAux] at hc
      split at hc
      · rw [List.mem_singleton] at hc
        subst hc
        exact digitOf_isDigit m
      · rcases List.mem_append.1 hc with h1 | h2
        · exact ih (m / 10) c h1
        · rw [List.mem_singleton] at h2
          subst h2
          exact digitOf_isDigit m

theorem natDigits_digits (m : ℕ) : ∀ c ∈ natDigits m, c.isDigit = true :=
  natDigitsAux_digits (m + 1) m

theorem dropWhile_append_of_all {p : Char → Bool} :
    ∀ l₁ l₂ : List Char, (∀ c ∈ l₁, p c = true) →
      List.dropWhile p (l₁ ++ l₂) = List.dropWhile p l₂ := by
  intro l₁
  induction l₁ with
  | nil => intro l₂ _; rfl
  | cons x xs ih =>
      intro l₂ h
      rw [List.cons_append, List.dropWhile_cons_of_pos (h x (List.mem_cons_self x xs))]
      exact ih l₂ (fun c hc => h c (List.mem_cons_of_mem _ hc))

theorem data_append (a b : String) : (a ++ b).data = a.data ++ b.data := rfl

/-- Characters after the first point of a string whose character data
splits as a point-free prefix, a point, and a suffix. -/
theorem afterPoint_eq_of_data (s : String) (pre post : List Char)
    (hdata : s.data = pre ++ '.' :: post) (hpre : ∀ c ∈ pre, (!(c == '.')) = true) :
    afterPoint s = some post := by
  unfold afterPoint
  rw [hdata, dropWhile_append_of_all pre _ hpre, List.dropWhile_cons_of_neg (by decide)]

theorem fixedStr_data (m : ℕ) :
    (fixedStr m).data = natDigits (m / 1000000) ++ '.' :: frac6 (m % 1000000) := by
  simp [fixedStr, data_append]

theorem frac6_length (m : ℕ) : (frac6 m).length = 6 := rfl

theorem frac6_all_digit (m : ℕ) : (frac6 m).all Char.isDigit = true := by
  simp [frac6, List.all_cons, digitOf_isDigit]

theorem toFixed6_fin_small {q : ℚ} (h : |q| < 10 ^ 21) :
    toFixed6 (fin q) =
      (if q < 0 then String.mk ['-'] else String.mk []) ++ fixedStr (roundFix6 |q|) := by
  simp only [toFixed6]
  rw [if_neg (not_le.mpr h)]

theorem roundFix6_zero : roundFix6 |(0 : ℚ)| = 0 := by
  rw [show |(0 : ℚ)| = 0 from abs_zero]
  unfold roundFix6
  have h : (⌊(0 : ℚ) * 1000000 + 1 / 2⌋) = 0 := by norm_num
  rw [h]
  rfl

theorem toFixed6_fin_zero :
    toFixed6 (fin 0) = String.mk ['0', '.', '0', '0', '0', '0', '0', '0'] := by
  rw [toFixed6_fin_small (by norm_num), if_neg (lt_irrefl (0 : ℚ)), roundFix6_zero]
  rfl

theorem jsMul_zero_fin (x : ℚ) : jsMul (fin 0) (fin x) = fin 0 := by
  rw [jsMul_fin_fin, zero_mul]

theorem calculate_output (d : DOM) :
    (calculate d).output =
      outPrefix ++ toFixed6 (jsMul (parseFloat d.time)
        (zeta (jsAdd (fin 1) (jsMul (parseFloat d.time) (fin (1 / 1000000)))))) := rfl

theorem calculate_time (d : DOM) : (calculate d).time = d.time := rfl

theorem calculate_out_nan (d : DOM) (h : parseFloat d.time = nan) :
    (calculate d).output = outPrefix ++ String.mk ['N', 'a', 'N'] := by
  rw [calculate_output, h]
  rw [show jsMul nan (fin (1 / 1000000)) = nan from rfl]
  rw [show jsAdd (fin 1) nan = nan from rfl]
  rw [zeta_nan]
  rfl

theorem parseFloat_inputEmpty : parseFloat inputEmpty = nan := by
  simp +decide [parseFloat, inputEmpty, infinityChars]

theorem parseFloat_inputZero : parseFloat inputZero = fin 0 := by
  simp +decide [parseFloat, inputZero, infinityChars, digitsVal]

theorem parseFloat_inputNegMillion : parseFloat inputNegMillion = fin (-1000000) := by
  simp +decide [parseFloat, inputNegMillion, infinityChars, digitsVal]

/-- Claim C1: for every input read from the field, `calculate` writes to
the output location exactly the string `E(t) ≈ ` followed by
`E = t * zeta(s)` formatted to six decimal places, where `t` is the
parsed field value and `s = 1 + t * 1e-6`. -/
theorem claim_C1 (d : DOM) :
    (calculate d).output =
      outPrefix ++ toFixed6 (jsMul (parseFloat d.time)
        (zeta (jsAdd (fin 1) (jsMul (parseFloat d.time) (fin (1 / 1000000)))))) := rfl

/-- Claim C2: for every exponent `s`, `zeta s` is the accumulation of
`1 / k ^ s` for `k = 1, …, 999` in increasing order of `k`, starting from
the accumulator 0. -/
theorem claim_C2 (s : JsNum) :
    zeta s =
      (List.range' 1 999).foldl
        (fun (a : JsNum) (k : ℕ) => jsAdd a (jsDiv (fin 1) (jsPow (fin (k : ℚ)) s)))
        (fin 0) := by
  rw [zeta_eq_foldl]
  rfl

/-- Claim C3, counterexample: the summation is not the fold over 1000
indices `k = 1, …, 1000`; at the exponent 0 the two disagree (999 terms
of 1 versus 1000 terms of 1). -/
theorem claim_C3_counterexample :
    zeta (fin 0) ≠
      (List.range' 1 1000).foldl
        (fun (a : JsNum) (k : ℕ) => jsAdd a (jsDiv (fin 1) (jsPow (fin (k : ℚ)) (fin 0))))
        (fin 0) := by
  rw [zeta_fin_zero]
  rw [foldl_fin_exact (fin 0) (fun _ => 1) (List.range' 1 1000)
    (fun k _ a => by rw [jsPow_exp_zero, jsDiv_one_fin one_ne_zero]; norm_num [jsAdd_fin_fin]) 0]
  norm_num [List.map_const', List.sum_replicate, List.length_range']

/-- Claim C3, amended: the summation loop adds exactly 999
reciprocal-power terms (`k = 1, …, 999`), not 1000, on every
invocation. -/
theorem claim_C3 :
    zetaTermIndices.length = 999 ∧
      ∀ s : JsNum,
        zeta s = zetaTermIndices.foldl
          (fun (a : JsNum) (k : ℕ) => jsAdd a (jsDiv (fin 1) (jsPow (fin (k : ℚ)) s)))
          (fin 0) :=
  ⟨by simp [zetaTermIndices, List.length_range', zetaN], fun s => zeta_eq_foldl s⟩

/-- Claim C4: whenever the field parses to NaN (as the empty string
does), no error is raised and NaN propagates: the exponent
`1 + t * 1e-6` is NaN, `zeta` of NaN is NaN, `E = t * zeta(s)` is NaN,
and the displayed text is `E(t) ≈ NaN`. -/
theorem claim_C4 (d : DOM) (h : parseFloat d.time = nan) :
    jsAdd (fin 1) (jsMul (parseFloat d.time) (fin (1 / 1000000))) = nan ∧
      zeta nan = nan ∧
      jsMul (parseFloat d.time)
        (zeta (jsAdd (fin 1) (jsMul (parseFloat d.time) (fin (1 / 1000000))))) = nan ∧
      (calculate d).output = outPrefix ++ String.mk ['N', 'a', 'N'] := by
  refine ⟨?_, zeta_nan, ?_, calculate_out_nan d h⟩
  · rw [h]
    rfl
  · rw [h]
    rw [show jsAdd (fin 1) (jsMul nan (fin (1 / 1000000))) = nan from rfl, zeta_nan]
    rfl

/-- Claim C4, witness at the empty input string. -/
theorem claim_C4_witness :
    (calculate (DOM.mk inputEmpty inputEmpty)).output =
      outPrefix ++ String.mk ['N', 'a', 'N'] :=
  (claim_C4 (DOM.mk inputEmpty inputEmpty) parseFloat_inputEmpty).2.2.2

/-- Claim C5, counterexample: it is not the case that for every input the
displayed output has exactly six digits after the decimal point; the
empty (non-numeric) input displays `E(t) ≈ NaN`, which has no decimal
point at all. -/
theorem claim_C5_counterexample :
    ¬ ∀ d : DOM, (afterPoint ((calculate d).output)).map List.length = some 6 := by
  intro hall
  have h := hall (DOM.mk inputEmpty inputEmpty)
  rw [calculate_out_nan _ parseFloat_inputEmpty] at h
  rw [show afterPoint (outPrefix ++ String.mk ['N', 'a', 'N']) = none from by decide] at h
  simp at h

/-- Claim C5, amended: for every input whose computed `E` is a finite
value of magnitude below `10 ^ 21`, the displayed output has exactly six
digits after the decimal point (six characters follow the point, all
decimal digits). -/
theorem claim_C5 (d : DOM) (q : ℚ)
    (hE : jsMul (parseFloat d.time)
        (zeta (jsAdd (fin 1) (jsMul (parseFloat d.time) (fin (1 / 1000000))))) = fin q)
    (hq : |q| < 10 ^ 21) :
    (afterPoint ((calculate d).output)).map List.length = some 6 ∧
      (afterPoint ((calculate d).output)).map (fun l => l.all Char.isDigit) = some true := by
  have hout : (calculate d).output =
      outPrefix ++ ((if q < 0 then String.mk ['-'] else String.mk []) ++
        fixedStr (roundFix6 |q|)) := by
    rw [calculate_output, hE, toFixed6_fin_small hq]
  have hdata : ((calculate d).output).data =
      (outPrefix.data ++ ((if q < 0 then String.mk ['-'] else String.mk []).data ++
          natDigits (roundFix6 |q| / 1000000))) ++
        '.' :: frac6 (roundFix6 |q| % 1000000) := by
    simp [hout, data_append, fixedStr_data]
  have hpre : ∀ c ∈ outPrefix.data ++ ((if q < 0 then String.mk ['-'] else String.mk []).data ++
      natDigits (roundFix6 |q| / 1000000)), (!(c == '.')) = true := by
    intro c hc
    rcases List.mem_append.1 hc with h1 | h2
    · have hall : outPrefix.data.all (fun c => !(c == '.')) = true := by decide
      exact List.all_eq_true.mp hall c h1
    · rcases List.mem_append.1 h2 with h3 | h4
      · by_cases hq0 : q < 0
        · simp only [if_pos hq0] at h3
          rw [List.mem_singleton.mp h3]
          decide
        · simp only [if_neg hq0] at h3
          exact absurd h3 (List.not_mem_nil c)
      · exact digit_skip (natDigits_digits _ c h4)
  rw [afterPoint_eq_of_data _ _ _ hdata hpre]
  exact ⟨by simp [frac6_length], by simp [frac6_all_digit]⟩

/-- Claim C5, witness at the input `-1000000` (so `s = 0`,
`zeta(0) = 999`, `E = -999000000`). -/
theorem claim_C5_witness :
    (afterPoint ((calculate (DOM.mk inputNegMillion inputEmpty)).output)).map List.length =
      some 6 := by
  have hs : jsAdd (fin 1) (jsMul (parseFloat inputNegMillion) (fin (1 / 1000000))) = fin 0 := by
    rw [parseFloat_inputNegMillion, jsMul_fin_fin, jsAdd_fin_fin]
    norm_num
  have hE : jsMul (parseFloat (DOM.mk inputNegMillion inputEmpty).time)
      (zeta (jsAdd (fin 1)
        (jsMul (parseFloat (DOM.mk inputNegMillion inputEmpty).time) (fin (1 / 1000000))))) =
      fin (-999000000) := by
    show jsMul (parseFloat inputNegMillion)
      (zeta (jsAdd (fin 1) (jsMul (parseFloat inputNegMillion) (fin (1 / 1000000))))) = _
    rw [hs, zeta_fin_zero, parseFloat_inputNegMillion, jsMul_fin_fin]
    norm_num
  exact (claim_C5 (DOM.mk inputNegMillion inputEmpty) (-999000000) hE (by norm_num)).1

/-- Claim C6: on the input `0` the exponent is `s = 1`, the series sum is
a finite value within `0.001` of `7.485`, `E = 0 * sum = 0`, and the
display is `E(t) ≈ 0.000000`. -/
theorem claim_C6 :
    jsAdd (fin 1) (jsMul (parseFloat inputZero) (fin (1 / 1000000))) = fin 1 ∧
      (∃ h : ℚ, zeta (fin 1) = fin h ∧ |h - 7485 / 1000| < 1 / 1000) ∧
      jsMul (parseFloat inputZero) (zeta (fin 1)) = fin 0 ∧
      ∀ d : DOM, d.time = inputZero →
        (calculate d).output = outPrefix ++ String.mk ['0', '.', '0', '0', '0', '0', '0', '0'] := by
  have hs : jsAdd (fin 1) (jsMul (parseFloat inputZero) (fin (1 / 1000000))) = fin 1 := by
    rw [parseFloat_inputZero, jsMul_fin_fin, jsAdd_fin_fin]
    norm_num
  refine ⟨hs, ⟨qzeta1, zeta_fin_one, qzeta1_near⟩, ?_, ?_⟩
  · rw [parseFloat_inputZero, zeta_fin_one, jsMul_zero_fin]
  · intro d hd
    rw [calculate_output, hd, hs, zeta_fin_one, parseFloat_inputZero, jsMul_zero_fin,
      toFixed6_fin_zero]

/-- Claim C6, witness: the conclusion of the display clause at a concrete
DOM state with the field `0`. -/
theorem claim_C6_witness :
    (calculate (DOM.mk inputZero inputEmpty)).output =
      outPrefix ++ String.mk ['0', '.', '0', '0', '0', '0', '0', '0'] :=
  claim_C6.2.2.2 (DOM.mk inputZero inputEmpty) rfl

/-- Claim C7: the computation is deterministic and stateless: the output
text depends only on the `time` field, `calculate` does not modify the
`time` field, and a repeated invocation reproduces the same state
bit-for-bit. -/
theorem claim_C7 :
    (∀ d₁ d₂ : DOM, d₁.time = d₂.time → (calculate d₁).output = (calculate d₂).output) ∧
      ∀ d : DOM, (calculate d).time = d.time ∧ calculate (calculate d) = calculate d := by
  refine ⟨?_, fun d => ⟨rfl, rfl⟩⟩
  intro d₁ d₂ h
  rw [calculate_output, calculate_output, h]

/-- Claim C7, witness: two states sharing the `time` field `0` produce
the same output. -/
theorem claim_C7_witness :
    (calculate (DOM.mk inputZero inputEmpty)).output =
      (calculate (DOM.mk inputZero inputZero)).output :=
  claim_C7.1 (DOM.mk inputZero inputEmpty) (DOM.mk inputZero inputZero) rfl

/-- Claim C8: every invocation terminates: the summation loop is total
from any loop counter, it is a bounded fold over the fixed list of 999
indices, and the whole calculation always produces a result state. -/
theorem claim_C8 :
    (∀ (s : JsNum) (k : ℕ) (acc : JsNum), ∃ v : JsNum, zetaLoop s k acc = v) ∧
      (∀ s : JsNum,
        zeta s = zetaTermIndices.foldl
          (fun (a : JsNum) (j : ℕ) => jsAdd a (jsDiv (fin 1) (jsPow (fin (j : ℚ)) s)))
          (fin 0) ∧ zetaTermIndices.length = 999) ∧
      ∀ d : DOM, ∃ d2 : DOM, calculate d = d2 :=
  ⟨fun _ _ _ => ⟨_, rfl⟩,
    fun s => ⟨zeta_eq_foldl s, by simp [zetaTermIndices, List.length_range', zetaN]⟩,
    fun _ => ⟨_, rfl⟩⟩

/-- Claim C9: `zeta` is total on the model of floating-point inputs —
for every `s`, including NaN and the two infinities, it returns a value
(no error is possible); at NaN and at the infinities the returned value
is NaN (the `k = 1` term `1 ^ s` is NaN there). -/
theorem claim_C9 :
    (∀ s : JsNum, ∃ v : JsNum, zeta s = v) ∧
      zeta nan = nan ∧ zeta posInf = nan ∧ zeta negInf = nan :=
  ⟨fun _ => ⟨_, rfl⟩, zeta_nan, zeta_posInf, zeta_negInf⟩

/-- Claim C10: for every finite exponent, the `k = 1` term contributes
exactly 1 (`1 ^ s = 1`), and `zeta` returns a finite value of at least
1. -/
theorem claim_C10 (q : ℚ) :
    jsPow (fin 1) (fin q) = fin 1 ∧ ∃ r : ℚ, zeta (fin q) = fin r ∧ 1 ≤ r :=
  ⟨jsPow_base_one q, zeta_fin_ge_one q⟩
